import Mathlib

/-
Verification of the time-period aggregation and averaging engine of the
Octopus energy-analysis repository (src/energy.py).

The embedding models:
  * time-of-day values ("HHMM" 4-digit strings) as pairs of natural numbers
    (hour digits, minute digits), with `hhmm` giving the numeric value of the
    string (what `c_int` returns on it) and `minutes` the minutes-of-day;
  * `time_add` (energy.py lines 69-83) with its four normalization `while`
    loops written as fuel-indexed structural recursions; the fuel passed by
    `time_add` is always sufficient, which the `addLoopN_spec` lemmas make
    precise (each lemma assumes exactly the fuel bound that the call site
    satisfies, and pins the loop result to the unique fixed point of the
    Python loop);
  * `time_list` (lines 85-96), `time_span` (lines 98-103);
  * the 30-minute price bucketing and period averaging of
    `Product.load_30_minute_prices` / `Product.plot_30_minute_prices`
    (lines 327-334 and 365-370), with Python dictionaries as association
    lists (insertion ordered, first-match lookup, exactly the dict
    semantics for the unique keys arising here) and Python runtime errors
    (KeyError, ZeroDivisionError) as explicit result constructors;
  * the Solcast daily-yield aggregation of `Solcast.__init__`
    (lines 475-507) and its per-date presentation in `Solcast.__str__`
    (line 518) and `Solcast.plot_daily`.
Floats are modelled as rationals; every property proved below is exact in
any field, so nothing depends on rounding behaviour.
-/

/-- Time of day as stored in the source: a 4-digit "HHMM" string, modelled by
its hour digits and minute digits.  `t[:2]` is `h`, `t[-2:]` is `m`. -/
structure Tod where
  h : Nat
  m : Nat
deriving DecidableEq, Repr

/-- A Tod denotes an actual wall-clock time: hour 0-23, minute 0-59. -/
def Tod.valid (t : Tod) : Prop := t.h < 24 ∧ t.m < 60

instance (t : Tod) : Decidable t.valid := by
  unfold Tod.valid
  infer_instance

/-- A Tod is on the 30-minute grid. -/
def Tod.grid (t : Tod) : Prop := t.m = 0 ∨ t.m = 30

instance (t : Tod) : Decidable t.grid := by
  unfold Tod.grid
  infer_instance

/-- Numeric value of the "HHMM" string, i.e. what `c_int` of the source
returns on it (used by `time_list` to compare start and end). -/
def hhmm (t : Tod) : Nat := 100 * t.h + t.m

/-- Minutes since midnight denoted by a Tod. -/
def minutes (t : Tod) : Nat := 60 * t.h + t.m

/-- The Tod whose minutes-of-day is `n` (for `n < 1440`). -/
def todOfMinutes (n : Nat) : Tod := ⟨n / 60, n % 60⟩

/-- energy.py lines 41-45, `c_float`: float conversion mapping `None`
(JSON null) to `0.0`. -/
def c_float (n : Option ℚ) : ℚ :=
  match n with
  | none => 0
  | some x => x

/-- First `while` loop of `time_add` (line 73): `while m > 59 : h += 1 ; m -= 60`,
as a fuel-indexed recursion.  With fuel at least as in `addLoop1_spec`, the
result is exactly the Python loop result. -/
def addLoop1 : Nat → Int → Int → Int × Int
  | 0, h, m => (h, m)
  | fuel + 1, h, m => if m > 59 then addLoop1 fuel (h + 1) (m - 60) else (h, m)

/-- Second `while` loop of `time_add` (line 76): `while m < 0 : h -= 1 ; m += 60`. -/
def addLoop2 : Nat → Int → Int → Int × Int
  | 0, h, m => (h, m)
  | fuel + 1, h, m => if m < 0 then addLoop2 fuel (h - 1) (m + 60) else (h, m)

/-- Third `while` loop of `time_add` (line 79): `while h > 23 : h -= 24`. -/
def addLoop3 : Nat → Int → Int
  | 0, h => h
  | fuel + 1, h => if h > 23 then addLoop3 fuel (h - 24) else h

/-- Fourth `while` loop of `time_add` (line 81): `while h < 0 : h += 24`. -/
def addLoop4 : Nat → Int → Int
  | 0, h => h
  | fuel + 1, h => if h < 0 then addLoop4 fuel (h + 24) else h

/-- energy.py lines 69-83, `time_add`: add or remove minutes from a time,
normalizing minutes and hours by the four `while` loops. -/
def time_add (t : Tod) (n : Int) : Tod :=
  let m0 : Int := (t.m : Int) + n
  let p1 := addLoop1 m0.natAbs (t.h : Int) m0
  let p2 := addLoop2 m0.natAbs p1.1 p1.2
  let h3 := addLoop3 p2.1.natAbs p2.1
  let h4 := addLoop4 h3.natAbs h3
  ⟨h4.toNat, p2.2.toNat⟩

/-- Loop of `time_list` (energy.py lines 92-95): starting from `start`,
repeatedly `time_add` 30 minutes and collect, until the current value equals
`end`.  The Python loop has no fuel; it diverges when `end` is unreachable.
The fuel-indexed model returns `none` in that case; `slots_ok` shows that for
the grid-aligned valid periods the claims quantify over, the loop terminates
well within the fuel of 48 that `time_list` passes. -/
def slotsFrom : Nat → Tod → Tod → Option (List Tod)
  | 0, cur, tgt => if cur = tgt then some [cur] else none
  | f + 1, cur, tgt =>
    if cur = tgt then some [cur]
    else (slotsFrom f (time_add cur 30) tgt).map (fun l => cur :: l)

/-- energy.py lines 85-96, `time_list`: expand a period into its inclusive
list of 30-minute slots; `none` models the `return None` taken (with a
diagnostic print) when `c_int(start) > c_int(end)`. -/
def time_list (s e : Tod) : Option (List Tod) :=
  if hhmm s > hhmm e then none else slotsFrom 48 s e

/-- Two-digit zero-padded decimal rendering, the `02d` f-string format for
values below 100. -/
def two_digits (n : Nat) : String := if n < 10 then "0" ++ toString n else toString n

/-- Rendering of a Tod back to its "HHMM" string. -/
def fmt (t : Tod) : String := two_digits t.h ++ two_digits t.m

/-- energy.py lines 98-103, `time_span`: the display range of a period, from
the configured start to `time_add(end, -1)`. -/
def time_span (s e : Tod) : String := fmt s ++ " to " ++ fmt (time_add e (-1))

/-- Lookup in a Python dict modelled as an insertion-ordered association
list. -/
def assocFind {α β : Type} [DecidableEq α] : List (α × β) → α → Option β
  | [], _ => none
  | p :: t, k => if p.1 = k then some p.2 else assocFind t k

/-- Update or insert in a Python dict modelled as an insertion-ordered
association list: an existing key keeps its position, a new key is appended. -/
def assocSet {α β : Type} [DecidableEq α] : List (α × β) → α → β → List (α × β)
  | [], k, v => [(k, v)]
  | p :: t, k, v => if p.1 = k then (k, v) :: t else p :: assocSet t k v

/-- Outcome of a Python computation that can raise: a value, a KeyError (dict
lookup of a missing key), a ZeroDivisionError, or a TypeError (slicing None). -/
inductive PyRes (α : Type) where
  | ok : α → PyRes α
  | keyError : PyRes α
  | zeroDiv : PyRes α
  | typeErr : PyRes α
deriving DecidableEq

/-- The list comprehension `[self.averages[k] for k in ks]` of energy.py line
369: collect the values of all keys, failing (KeyError) as soon as one key is
missing. -/
def getAll (avgs : List (Tod × ℚ)) : List Tod → Option (List ℚ)
  | [] => some []
  | k :: t =>
    match assocFind avgs k with
    | none => none
    | some v => (getAll avgs t).map (fun l => v :: l)

/-- energy.py lines 368-370, the per-period average of
`Product.plot_30_minute_prices`:
`v = [self.averages[k] for k in time_list(p)[:-1]] ; sum(v) / len(v)`.
`typeErr` models slicing the `None` returned by `time_list` for an invalid
period, `keyError` a slot missing from `self.averages`, `zeroDiv` the division
by `len(v) = 0`. -/
def period_avg (avgs : List (Tod × ℚ)) (s e : Tod) : PyRes ℚ :=
  match time_list s e with
  | none => PyRes.typeErr
  | some slots =>
    match getAll avgs slots.dropLast with
    | none => PyRes.keyError
    | some v => if v.length = 0 then PyRes.zeroDiv else PyRes.ok (v.sum / (v.length : ℚ))

/-- A raw record of the pricing collaborator (energy.py lines 327-331):
`valid_from` ISO timestamp and a possibly-null `value_inc_vat`. -/
structure PriceRecord where
  valid_from : String
  value_inc_vat : Option ℚ

/-- energy.py lines 328-334, ingestion of one raw price record into
`self.prices[hour][day]`: `day = s[:10]`, `hour = s[11:16]` with the colon
removed, `value = c_float(r.get(value_inc_vat))`. -/
def priceStep (prices : List (String × List (String × ℚ))) (r : PriceRecord) :
    List (String × List (String × ℚ)) :=
  let day := r.valid_from.take 10
  let hour := ((r.valid_from.drop 11).take 5).replace ":" ""
  let value := c_float r.value_inc_vat
  let inner := (assocFind prices hour).getD []
  assocSet prices hour (assocSet inner day value)

/-- A raw record of the yield collaborator (energy.py lines 481-490), tagged
with the data set it came from (`forecasts` or `estimated_actuals`) and the
site id (rid) it was fetched for; `pv` is the possibly-null `pv_estimate`. -/
structure SolSample where
  isForecast : Bool
  rid : String
  period_end : String
  pv : Option ℚ
deriving DecidableEq

/-- The per-date accumulator `self.daily[date]` of energy.py line 486: the
forecast tag, the running kWh total, and per-rid lists of the half-hour times
already counted. -/
structure DayEntry where
  forecast : Bool
  kwh : ℚ
  rids : List (String × List String)
deriving DecidableEq

/-- energy.py line 483: `date = period_end[:10]`. -/
def sampleDate (s : SolSample) : String := s.period_end.take 10

/-- energy.py line 484: `time = period_end[11:16]`. -/
def sampleTime (s : SolSample) : String := (s.period_end.drop 11).take 5

/-- energy.py lines 482-493, processing of one yield record in the
`Solcast.__init__` aggregation loop: create the date entry if absent (tagging
it with the data set of this first record), create the rid list if absent, and
if the time is not yet recorded for this rid add `c_float(pv_estimate) / 2`
kWh and record the time; otherwise ignore the record as overlapping data. -/
def solStep (daily : List (String × DayEntry)) (s : SolSample) : List (String × DayEntry) :=
  let date := sampleDate s
  let time := sampleTime s
  let daily1 := if (assocFind daily date).isSome then daily
    else assocSet daily date ⟨s.isForecast, 0, []⟩
  let e := (assocFind daily1 date).getD ⟨s.isForecast, 0, []⟩
  let e1 := if (assocFind e.rids s.rid).isSome then e
    else { e with rids := assocSet e.rids s.rid [] }
  let daily2 := assocSet daily1 date e1
  let rl := (assocFind e1.rids s.rid).getD []
  if time ∈ rl then daily2
  else
    assocSet daily2 date
      { e1 with
        kwh := e1.kwh + c_float s.pv / 2
        rids := assocSet e1.rids s.rid (rl ++ [time]) }

/-- The full aggregation loop of `Solcast.__init__` (lines 477-493) over the
flattened record sequence: the source iterates data sets in order
(`forecasts` first, then `estimated_actuals`), then rids, then records, so
the input list is that flattening. -/
def solAgg (samples : List SolSample) : List (String × DayEntry) :=
  samples.foldl solStep []

/-- Helper restating the `DayEntry` that `solStep` stores for the date of the
processed sample (proved equal to the stored entry in `assocFind_solStep`):
the entry found or freshly created, with the rid list created if needed, and
the kWh/time updates applied when the time is new. -/
def finalEntry (daily : List (String × DayEntry)) (t : SolSample) : DayEntry :=
  let e := (assocFind daily (sampleDate t)).getD ⟨t.isForecast, 0, []⟩
  let e1 := if (assocFind e.rids t.rid).isSome then e
    else { e with rids := assocSet e.rids t.rid [] }
  let rl := (assocFind e1.rids t.rid).getD []
  if sampleTime t ∈ rl then e1
  else
    { e1 with
      kwh := e1.kwh + c_float t.pv / 2
      rids := assocSet e1.rids t.rid (rl ++ [sampleTime t]) }

/-- The list of times recorded in `daily` for a date and rid (empty when
either key is absent). -/
def timesOf (daily : List (String × DayEntry)) (d r : String) : List String :=
  match assocFind daily d with
  | none => []
  | some e => (assocFind e.rids r).getD []

/-- Whether the (date, rid, time) key of a sample is already recorded: the
guard of energy.py line 489 (`time not in self.daily[date][rid]`) negated. -/
def seenIn (daily : List (String × DayEntry)) (s : SolSample) : Bool :=
  decide (sampleTime s ∈ timesOf daily (sampleDate s) s.rid)

/-- The stored raw kWh total of a date (`self.daily[k]['kwh']`), 0 when the
date is absent. -/
def kwhOf (daily : List (String × DayEntry)) (d : String) : ℚ :=
  ((assocFind daily d).getD ⟨false, 0, []⟩).kwh

/-- The `while self.days > 2 * days` trim loop of energy.py lines 498-500 as a
fuel-indexed recursion; `trimLoop` passes the list length as fuel, which is
always sufficient (`trimLoopFuel_irrel` shows the result is fuel-independent
from that point on, so this is exactly the Python loop). -/
def trimLoopFuel : Nat → List String → Nat → List String
  | 0, keys, _ => keys
  | fuel + 1, keys, days =>
    if keys.length > 2 * days then trimLoopFuel fuel ((keys.drop 1).dropLast) days else keys

/-- energy.py lines 498-500: `while self.days > 2 * days : self.keys = self.keys[1:-1]`. -/
def trimLoop (keys : List String) (days : Nat) : List String :=
  trimLoopFuel keys.length keys days

/-- energy.py lines 495-500 applied to the sorted date list: the unconditional
boundary discard `sorted(self.daily.keys())[1:-1]` followed by the trim loop. -/
def keysAfterTrim (sortedDates : List String) (days : Nat) : List String :=
  trimLoop ((sortedDates.drop 1).dropLast) days

/-- Dropping `k` elements from each end of a list (the k-fold `[1:-1]`). -/
def dropBoth (k : Nat) (l : List String) : List String :=
  (l.drop k).take (l.length - 2 * k)

/-- Lexicographic order on character lists by code point, the order Python
uses to compare strings. -/
def charListLt : List Char → List Char → Bool
  | _, [] => false
  | [], _ :: _ => true
  | a :: as, b :: bs =>
    if a.toNat < b.toNat then true
    else if b.toNat < a.toNat then false
    else charListLt as bs

/-- Python string comparison `a < b`: lexicographic by code point. -/
def strLt (a b : String) : Bool := charListLt a.data b.data

/-- Insertion into an ascending list, used to model Python `sorted`. -/
def insertSorted (x : String) : List String → List String
  | [] => [x]
  | y :: t => if strLt x y then x :: y :: t else y :: insertSorted x t

/-- Model of Python `sorted` on the (distinct) dict keys: ascending insertion
sort.  On distinct keys any correct ascending sort returns the same list. -/
def sortKeys (l : List String) : List String := l.foldr insertSorted []

/-- The aggregation outcome of `Solcast.__init__`: the attributes the
constructor stores.  `avg = none` models the case where the guarded
`if self.days > 0 : self.avg = ...` of lines 503-504 leaves the `avg`
attribute unset. -/
structure SolcastR where
  daily : List (String × DayEntry)
  keys : List String
  days : Nat
  values : List ℚ
  total : ℚ
  avg : Option ℚ
  cal : ℚ

/-- energy.py lines 475-507, the aggregation part of `Solcast.__init__`:
bucket all samples by date, sort the dates, discard the first and last,
trim while more than `2 * days` remain, and compute values, total and
(when any date remains) the average.  `cal` is the process-wide
`solcast_cal` stored as `self.cal` (line 505); it is not used in the
aggregation itself. -/
def solcastInit (samples : List SolSample) (days : Nat) (cal : ℚ) : SolcastR :=
  let daily := solAgg samples
  let keys := keysAfterTrim (sortKeys (daily.map (fun p => p.1))) days
  let values := keys.map (fun k => kwhOf daily k)
  let total := values.sum
  { daily := daily
    keys := keys
    days := keys.length
    values := values
    total := total
    avg := if keys.length > 0 then some (total / (keys.length : ℚ)) else none
    cal := cal }

/-- energy.py line 518 (`Solcast.__str__`), likewise lines 536 and 541
(`plot_daily`): the presented per-date value `self.daily[k]['kwh'] * self.cal`. -/
def presentedDaily (r : SolcastR) (k : String) : ℚ := kwhOf r.daily k * r.cal

/-- A concrete forecast sample used in witnesses. -/
def sampleA : SolSample := ⟨true, "r1", "2023-02-01T10:30:00Z", some 3⟩

/-- The estimated-actual twin of `sampleA`: same rid, same timestamp. -/
def sampleB : SolSample := ⟨false, "r1", "2023-02-01T10:30:00Z", some 3⟩

/-- Concrete samples on three consecutive dates, used in witnesses. -/
def sampleC1 : SolSample := ⟨true, "r1", "2023-02-01T10:30:00Z", some 4⟩

def sampleC2 : SolSample := ⟨true, "r1", "2023-02-02T10:30:00Z", some 6⟩

def sampleC3 : SolSample := ⟨true, "r1", "2023-02-03T10:30:00Z", some 8⟩

lemma Tod.h_mk (a b : Nat) : (Tod.mk a b).h = a := rfl

lemma Tod.m_mk (a b : Nat) : (Tod.mk a b).m = b := rfl

lemma addLoop1_zero (h m : Int) : addLoop1 0 h m = (h, m) := rfl

lemma addLoop1_succ (f : Nat) (h m : Int) :
    addLoop1 (f + 1) h m = if m > 59 then addLoop1 f (h + 1) (m - 60) else (h, m) := rfl

lemma addLoop2_zero (h m : Int) : addLoop2 0 h m = (h, m) := rfl

lemma addLoop2_succ (f : Nat) (h m : Int) :
    addLoop2 (f + 1) h m = if m < 0 then addLoop2 f (h - 1) (m + 60) else (h, m) := rfl

lemma addLoop3_zero (h : Int) : addLoop3 0 h = h := rfl

lemma addLoop3_succ (f : Nat) (h : Int) :
    addLoop3 (f + 1) h = if h > 23 then addLoop3 f (h - 24) else h := rfl

lemma addLoop4_zero (h : Int) : addLoop4 0 h = h := rfl

lemma addLoop4_succ (f : Nat) (h : Int) :
    addLoop4 (f + 1) h = if h < 0 then addLoop4 f (h + 24) else h := rfl

lemma addLoop1_spec : ∀ (fuel : Nat) (h m : Int), m ≤ 59 + 60 * (fuel : Int) →
    60 * (addLoop1 fuel h m).1 + (addLoop1 fuel h m).2 = 60 * h + m ∧
    (addLoop1 fuel h m).2 ≤ 59 ∧
    ((addLoop1 fuel h m).2 < 0 → (addLoop1 fuel h m).2 = m) := by
  intro fuel
  induction fuel with
  | zero =>
    intro h m hm
    rw [addLoop1_zero]
    exact ⟨rfl, (show m ≤ 59 by omega), fun _ => rfl⟩
  | succ f ih =>
    intro h m hm
    rw [addLoop1_succ]
    by_cases hgt : m > 59
    · rw [if_pos hgt]
      obtain ⟨ha, hb, hc⟩ := ih (h + 1) (m - 60) (by omega)
      refine ⟨by omega, hb, fun hneg => by have := hc hneg; omega⟩
    · rw [if_neg hgt]
      exact ⟨rfl, (show m ≤ 59 by omega), fun _ => rfl⟩

lemma addLoop2_spec : ∀ (fuel : Nat) (h m : Int), 0 ≤ m + 60 * (fuel : Int) →
    60 * (addLoop2 fuel h m).1 + (addLoop2 fuel h m).2 = 60 * h + m ∧
    0 ≤ (addLoop2 fuel h m).2 ∧
    (m ≤ 59 → (addLoop2 fuel h m).2 ≤ 59) := by
  intro fuel
  induction fuel with
  | zero =>
    intro h m hm
    rw [addLoop2_zero]
    exact ⟨rfl, (show 0 ≤ m by omega), fun hle => (show m ≤ 59 from hle)⟩
  | succ f ih =>
    intro h m hm
    rw [addLoop2_succ]
    by_cases hlt : m < 0
    · rw [if_pos hlt]
      obtain ⟨ha, hb, hc⟩ := ih (h - 1) (m + 60) (by omega)
      exact ⟨by omega, hb, fun _ => hc (by omega)⟩
    · rw [if_neg hlt]
      exact ⟨rfl, (show 0 ≤ m by omega), fun hle => (show m ≤ 59 from hle)⟩

lemma addLoop3_spec : ∀ (fuel : Nat) (h : Int), h ≤ 23 + 24 * (fuel : Int) →
    (∃ k : Int, 0 ≤ k ∧ addLoop3 fuel h = h - 24 * k) ∧
    addLoop3 fuel h ≤ 23 ∧
    (0 ≤ h → 0 ≤ addLoop3 fuel h) := by
  intro fuel
  induction fuel with
  | zero =>
    intro h hh
    rw [addLoop3_zero]
    exact ⟨⟨0, le_refl 0, by ring⟩, by omega, fun h0 => h0⟩
  | succ f ih =>
    intro h hh
    rw [addLoop3_succ]
    by_cases hgt : h > 23
    · rw [if_pos hgt]
      obtain ⟨⟨k, hk0, hk⟩, hle, hpos⟩ := ih (h - 24) (by omega)
      exact ⟨⟨k + 1, by omega, by omega⟩, hle, fun _ => hpos (by omega)⟩
    · rw [if_neg hgt]
      exact ⟨⟨0, le_refl 0, by ring⟩, by omega, fun h0 => h0⟩

lemma addLoop4_spec : ∀ (fuel : Nat) (h : Int), 0 ≤ h + 24 * (fuel : Int) →
    (∃ k : Int, 0 ≤ k ∧ addLoop4 fuel h = h + 24 * k) ∧
    0 ≤ addLoop4 fuel h ∧
    (h ≤ 23 → addLoop4 fuel h ≤ 23) := by
  intro fuel
  induction fuel with
  | zero =>
    intro h hh
    rw [addLoop4_zero]
    exact ⟨⟨0, le_refl 0, by ring⟩, by omega, fun h0 => h0⟩
  | succ f ih =>
    intro h hh
    rw [addLoop4_succ]
    by_cases hlt : h < 0
    · rw [if_pos hlt]
      obtain ⟨⟨k, hk0, hk⟩, hpos, hle⟩ := ih (h + 24) (by omega)
      exact ⟨⟨k + 1, by omega, by omega⟩, hpos, fun _ => hle (by omega)⟩
    · rw [if_neg hlt]
      exact ⟨⟨0, le_refl 0, by ring⟩, by omega, fun h0 => h0⟩

/-- Result characterization of `time_add`: it always produces a valid time of
day, and the minutes-of-day of the result is the input minutes-of-day plus the
delta, reduced modulo 1440. -/
lemma time_add_minutes (t : Tod) (n : Int) :
    (time_add t n).valid ∧
    (minutes (time_add t n) : Int) = ((minutes t : Int) + n) % 1440 := by
  obtain ⟨h1sum, h1le, h1neg⟩ := addLoop1_spec ((t.m : Int) + n).natAbs (t.h : Int)
    ((t.m : Int) + n) (by omega)
  have hfuel2 : 0 ≤ (addLoop1 ((t.m : Int) + n).natAbs (t.h : Int) ((t.m : Int) + n)).2 +
      60 * ((((t.m : Int) + n).natAbs : Nat) : Int) := by
    rcases lt_or_le (addLoop1 ((t.m : Int) + n).natAbs (t.h : Int) ((t.m : Int) + n)).2 0 with hc | hc
    · have := h1neg hc
      omega
    · omega
  obtain ⟨h2sum, h2pos, h2le⟩ := addLoop2_spec ((t.m : Int) + n).natAbs
    (addLoop1 ((t.m : Int) + n).natAbs (t.h : Int) ((t.m : Int) + n)).1
    (addLoop1 ((t.m : Int) + n).natAbs (t.h : Int) ((t.m : Int) + n)).2 hfuel2
  have h2le59 := h2le h1le
  obtain ⟨⟨k3, hk30, hk3⟩, h3le, h3pos⟩ := addLoop3_spec
    (addLoop2 ((t.m : Int) + n).natAbs
      (addLoop1 ((t.m : Int) + n).natAbs (t.h : Int) ((t.m : Int) + n)).1
      (addLoop1 ((t.m : Int) + n).natAbs (t.h : Int) ((t.m : Int) + n)).2).1.natAbs
    (addLoop2 ((t.m : Int) + n).natAbs
      (addLoop1 ((t.m : Int) + n).natAbs (t.h : Int) ((t.m : Int) + n)).1
      (addLoop1 ((t.m : Int) + n).natAbs (t.h : Int) ((t.m : Int) + n)).2).1
    (by omega)
  obtain ⟨⟨k4, hk40, hk4⟩, h4pos, h4le⟩ := addLoop4_spec
    (addLoop3
      (addLoop2 ((t.m : Int) + n).natAbs
        (addLoop1 ((t.m : Int) + n).natAbs (t.h : Int) ((t.m : Int) + n)).1
        (addLoop1 ((t.m : Int) + n).natAbs (t.h : Int) ((t.m : Int) + n)).2).1.natAbs
      (addLoop2 ((t.m : Int) + n).natAbs
        (addLoop1 ((t.m : Int) + n).natAbs (t.h : Int) ((t.m : Int) + n)).1
        (addLoop1 ((t.m : Int) + n).natAbs (t.h : Int) ((t.m : Int) + n)).2).1).natAbs
    (addLoop3
      (addLoop2 ((t.m : Int) + n).natAbs
        (addLoop1 ((t.m : Int) + n).natAbs (t.h : Int) ((t.m : Int) + n)).1
        (addLoop1 ((t.m : Int) + n).natAbs (t.h : Int) ((t.m : Int) + n)).2).1.natAbs
      (addLoop2 ((t.m : Int) + n).natAbs
        (addLoop1 ((t.m : Int) + n).natAbs (t.h : Int) ((t.m : Int) + n)).1
        (addLoop1 ((t.m : Int) + n).natAbs (t.h : Int) ((t.m : Int) + n)).2).1)
    (by omega)
  have h4le23 := h4le (by omega)
  constructor
  · simp only [time_add, Tod.valid, Tod.h_mk, Tod.m_mk]
    omega
  · simp only [time_add, minutes, Tod.h_mk, Tod.m_mk]
    push_cast
    omega

/-- Valid times of day are determined by their minutes-of-day. -/
lemma minutes_inj {a b : Tod} (ha : a.valid) (hb : b.valid)
    (h : minutes a = minutes b) : a = b := by
  obtain ⟨ah, am⟩ := a
  obtain ⟨bh, bm⟩ := b
  obtain ⟨ha1, ha2⟩ := ha
  obtain ⟨hb1, hb2⟩ := hb
  rw [Tod.h_mk] at ha1 hb1
  rw [Tod.m_mk] at ha2 hb2
  simp only [minutes, Tod.h_mk, Tod.m_mk] at h
  simp only [Tod.mk.injEq]
  omega

lemma minutes_lt_1440 {t : Tod} (h : t.valid) : minutes t < 1440 := by
  obtain ⟨h1, h2⟩ := h
  simp only [minutes]
  omega

lemma todOfMinutes_minutes {t : Tod} (h : t.valid) : todOfMinutes (minutes t) = t := by
  obtain ⟨th, tm⟩ := t
  obtain ⟨h1, h2⟩ := h
  rw [Tod.h_mk] at h1
  rw [Tod.m_mk] at h2
  simp only [todOfMinutes, minutes, Tod.h_mk, Tod.m_mk, Tod.mk.injEq]
  omega

lemma todOfMinutes_valid {n : Nat} (h : n < 1440) : (todOfMinutes n).valid := by
  simp only [todOfMinutes, Tod.valid, Tod.h_mk, Tod.m_mk]
  omega

lemma minutes_todOfMinutes (n : Nat) : minutes (todOfMinutes n) = n := by
  simp only [todOfMinutes, minutes, Tod.h_mk, Tod.m_mk]
  omega

lemma minutes_time_add_30 {t : Tod} (hle : minutes t + 30 ≤ 1439) :
    minutes (time_add t 30) = minutes t + 30 := by
  have h := (time_add_minutes t 30).2
  omega

lemma slotsFrom_self (fuel : Nat) (s : Tod) : slotsFrom fuel s s = some [s] := by
  cases fuel with
  | zero => simp [slotsFrom]
  | succ f => simp [slotsFrom]

lemma slots_ok : ∀ (k fuel : Nat) (s e : Tod), k ≤ fuel → s.valid → e.valid →
    minutes e = minutes s + 30 * k →
    slotsFrom fuel s e =
      some ((List.range (k + 1)).map (fun i => todOfMinutes (minutes s + 30 * i))) := by
  intro k
  induction k with
  | zero =>
    intro fuel s e _ hs he hme
    have hse : s = e := minutes_inj hs he (by omega)
    subst hse
    rw [slotsFrom_self]
    refine congrArg some ?_
    rw [List.range_succ, List.range_zero, List.nil_append, List.map_cons, List.map_nil,
      Nat.mul_zero, Nat.add_zero, todOfMinutes_minutes hs]
  | succ kk ih =>
    intro fuel s e hkf hs he hme
    obtain ⟨f, rfl⟩ : ∃ f, fuel = f + 1 := ⟨fuel - 1, by omega⟩
    have hne : s ≠ e := by
      intro hh
      subst hh
      omega
    have hbound : minutes s + 30 ≤ 1439 := by
      have := minutes_lt_1440 he
      omega
    have hmin : minutes (time_add s 30) = minutes s + 30 := minutes_time_add_30 hbound
    have hval : (time_add s 30).valid := (time_add_minutes s 30).1
    have hrec := ih f (time_add s 30) e (by omega) hval he (by omega)
    rw [slotsFrom, if_neg hne, hrec, hmin]
    rw [Option.map_some']
    refine congrArg some ?_
    conv_rhs => rw [List.range_succ_eq_map]
    rw [List.map_cons, List.map_map]
    refine congrArg₂ List.cons ?_ ?_
    · rw [Nat.mul_zero, Nat.add_zero, todOfMinutes_minutes hs]
    · refine List.map_congr_left ?_
      intro i _
      simp only [Function.comp_apply]
      refine congrArg todOfMinutes ?_
      omega

/-- C1: for a registered period with valid grid-aligned start and end, compared
as the numeric value of the "HHMM" string, `time_list` returns the inclusive
ordered list of 30-minute slots from start to end, of length
`(end - start) / 30 + 1` in minutes-of-day, when `start <= end`; and it fails
(returns `None` with the InvalidPeriod diagnostic) when `start > end`. -/
theorem time_list_slots (s e : Tod) (hs : s.valid) (hgs : s.grid) (he : e.valid)
    (hge : e.grid) :
    (hhmm s ≤ hhmm e →
      time_list s e =
        some ((List.range ((minutes e - minutes s) / 30 + 1)).map
          (fun i => todOfMinutes (minutes s + 30 * i))) ∧
      (time_list s e).map List.length = some ((minutes e - minutes s) / 30 + 1)) ∧
    (hhmm e < hhmm s → time_list s e = none) := by
  constructor
  · intro hle
    have hms : minutes s ≤ minutes e := by
      obtain ⟨hs1, hs2⟩ := hs
      obtain ⟨he1, he2⟩ := he
      simp only [hhmm] at hle
      simp only [minutes]
      omega
    have hds : 30 ∣ minutes s := by
      rcases hgs with hg | hg <;> simp only [minutes, hg] <;> omega
    have hde : 30 ∣ minutes e := by
      rcases hge with hg | hg <;> simp only [minutes, hg] <;> omega
    have hke : minutes e = minutes s + 30 * ((minutes e - minutes s) / 30) := by
      omega
    have hklt : (minutes e - minutes s) / 30 ≤ 48 := by
      have := minutes_lt_1440 he
      omega
    have hnot : ¬ hhmm s > hhmm e := by omega
    have hmain := slots_ok ((minutes e - minutes s) / 30) 48 s e hklt hs he hke
    refine ⟨?_, ?_⟩
    · rw [time_list, if_neg hnot, hmain]
    · rw [time_list, if_neg hnot, hmain]
      simp
  · intro hlt
    have hgt : hhmm s > hhmm e := hlt
    rw [time_list, if_pos hgt]

/-- Witness for C1 on the default night period 0130-0500. -/
theorem time_list_slots_witness :
    (Tod.valid ⟨1, 30⟩ ∧ Tod.grid ⟨1, 30⟩ ∧ Tod.valid ⟨5, 0⟩ ∧ Tod.grid ⟨5, 0⟩ ∧
      hhmm ⟨1, 30⟩ ≤ hhmm ⟨5, 0⟩) ∧
    time_list ⟨1, 30⟩ ⟨5, 0⟩ =
      some ((List.range ((minutes ⟨5, 0⟩ - minutes ⟨1, 30⟩) / 30 + 1)).map
        (fun i => todOfMinutes (minutes ⟨1, 30⟩ + 30 * i))) := by
  refine ⟨⟨by decide, by decide, by decide, by decide, by decide⟩, ?_⟩
  exact ((time_list_slots ⟨1, 30⟩ ⟨5, 0⟩ (by decide) (by decide) (by decide)
    (by decide)).1 (by decide)).1

/-- C2: `time_add` always succeeds, and adding `d` then `-d` minutes is the
identity on valid times of day; hence for each fixed `d` it is a bijection on
the 1440-point minute-of-day cycle (minutes wrap modulo 60, hours modulo 24,
see `time_add_minutes`). -/
theorem time_add_roundtrip (n : Int) :
    (∀ t : Tod, t.valid → time_add (time_add t n) (-n) = t) ∧
    Function.Bijective
      (fun x : {t : Tod // t.valid} =>
        (⟨time_add x.1 n, (time_add_minutes x.1 n).1⟩ : {t : Tod // t.valid})) := by
  have hrt : ∀ (d : Int) (t : Tod), t.valid → time_add (time_add t d) (-d) = t := by
    intro d t ht
    have h1 := (time_add_minutes t d).2
    have h2 := (time_add_minutes (time_add t d) (-d)).2
    refine minutes_inj (time_add_minutes (time_add t d) (-d)).1 ht ?_
    have hlt := minutes_lt_1440 ht
    omega
  refine ⟨hrt n, ?_⟩
  rw [Function.bijective_iff_has_inverse]
  refine ⟨fun x => ⟨time_add x.1 (-n), (time_add_minutes x.1 (-n)).1⟩, ?_, ?_⟩
  · intro x
    exact Subtype.ext (hrt n x.1 x.2)
  · intro x
    have hh := hrt (-n) x.1 x.2
    rw [neg_neg] at hh
    exact Subtype.ext hh

/-- Witness for C2 at t = 1330, d = 45. -/
theorem time_add_roundtrip_witness :
    Tod.valid ⟨13, 30⟩ ∧ time_add (time_add ⟨13, 30⟩ 45) (-45) = ⟨13, 30⟩ :=
  ⟨by decide, (time_add_roundtrip 45).1 ⟨13, 30⟩ (by decide)⟩

/-- Counterexample to C8: for the default night period (end 0500) the
displayed end is 0459, one minute before the configured end, not the
0430 that lies one 30-minute slot before it. -/
theorem time_span_counterexample :
    time_span ⟨1, 30⟩ ⟨5, 0⟩ = "0130 to 0459" ∧
    time_add ⟨5, 0⟩ (-30) = ⟨4, 30⟩ ∧
    time_span ⟨1, 30⟩ ⟨5, 0⟩ ≠ fmt ⟨1, 30⟩ ++ " to " ++ fmt (time_add ⟨5, 0⟩ (-30)) := by
  refine ⟨by decide, by decide, by decide⟩

/-- C8 amended: `time_span` returns the inclusive display range whose start is
the configured start and whose displayed end is exactly one MINUTE before the
configured end (modulo midnight wrap), not one 30-minute slot before it. -/
theorem time_span_spec (s e : Tod) :
    ∃ u : Tod, u.valid ∧ time_span s e = fmt s ++ " to " ++ fmt u ∧
      (minutes u : Int) = ((minutes e : Int) - 1) % 1440 := by
  refine ⟨time_add e (-1), (time_add_minutes e (-1)).1, rfl, ?_⟩
  have hh := (time_add_minutes e (-1)).2
  omega

lemma assocFind_assocSet_self {α β : Type} [DecidableEq α] (l : List (α × β)) (k : α) (v : β) :
    assocFind (assocSet l k v) k = some v := by
  induction l with
  | nil => simp [assocSet, assocFind]
  | cons p t ih =>
    by_cases h : p.1 = k
    · simp [assocSet, h, assocFind]
    · simp [assocSet, h, assocFind, ih]

lemma assocFind_assocSet_ne {α β : Type} [DecidableEq α] (l : List (α × β)) (k k2 : α)
    (v : β) (h : k2 ≠ k) : assocFind (assocSet l k v) k2 = assocFind l k2 := by
  induction l with
  | nil => simp [assocSet, assocFind, Ne.symm h]
  | cons p t ih =>
    by_cases ha : p.1 = k
    · simp [assocSet, ha, assocFind, Ne.symm h]
    · simp [assocSet, ha, assocFind, ih]

lemma assocSet_find_self {α β : Type} [DecidableEq α] (l : List (α × β)) (k : α) (v : β)
    (h : assocFind l k = some v) : assocSet l k v = l := by
  induction l with
  | nil => simp [assocFind] at h
  | cons p t ih =>
    obtain ⟨p1, p2⟩ := p
    by_cases ha : p1 = k
    · subst ha
      simp [assocFind] at h
      simp [assocSet, h]
    · simp [assocFind, ha] at h
      simp [assocSet, ha, ih h]

lemma getAll_eq_none (avgs : List (Tod × ℚ)) :
    ∀ ks : List Tod, (∃ k ∈ ks, assocFind avgs k = none) → getAll avgs ks = none := by
  intro ks
  induction ks with
  | nil =>
    intro h
    obtain ⟨k, hk, _⟩ := h
    simp at hk
  | cons k t ih =>
    intro h
    obtain ⟨k0, hk0mem, hk0⟩ := h
    rcases List.mem_cons.mp hk0mem with heq | hmem
    · subst heq
      rw [getAll, hk0]
    · rw [getAll]
      cases hfind : assocFind avgs k with
      | none => rfl
      | some v => simp [ih ⟨k0, hmem, hk0⟩]

/-- C5 corrected: a slot of `expandSlots(name)[:-1]` that is absent from the
slot averages makes the period-average computation fail with a KeyError
(the comprehension of energy.py line 369 has no guard); only when every such
slot is present (and there is at least one) is the average computed, over
exactly those slots. -/
theorem period_avg_missing_slot (avgs : List (Tod × ℚ)) (s e : Tod) (slots : List Tod)
    (hl : time_list s e = some slots) :
    ((∃ k ∈ slots.dropLast, assocFind avgs k = none) →
      period_avg avgs s e = PyRes.keyError) ∧
    (∀ vs : List ℚ, getAll avgs slots.dropLast = some vs → vs.length ≠ 0 →
      period_avg avgs s e = PyRes.ok (vs.sum / (vs.length : ℚ))) := by
  constructor
  · intro hex
    have hnone := getAll_eq_none avgs slots.dropLast hex
    simp [period_avg, hl, hnone]
  · intro vs hvs hne
    simp [period_avg, hl, hvs, hne]

/-- Counterexample to C5: with the 0200 slot missing from the averages, the
period 0130-0300 fails with a KeyError instead of averaging the present
slots. -/
theorem period_avg_missing_counterexample :
    period_avg [(⟨1, 30⟩, (10 : ℚ)), (⟨2, 30⟩, 20), (⟨3, 0⟩, 30)] ⟨1, 30⟩ ⟨3, 0⟩ =
      PyRes.keyError := by
  decide

/-- Witness for the corrected C5 on the period 0130-0300 with slot 0200
missing. -/
theorem period_avg_missing_witness :
    time_list ⟨1, 30⟩ ⟨3, 0⟩ = some [⟨1, 30⟩, ⟨2, 0⟩, ⟨2, 30⟩, ⟨3, 0⟩] ∧
    (∃ k ∈ ([⟨1, 30⟩, ⟨2, 0⟩, ⟨2, 30⟩, ⟨3, 0⟩] : List Tod).dropLast,
      assocFind [(⟨1, 30⟩, (10 : ℚ)), (⟨2, 30⟩, 20), (⟨3, 0⟩, 30)] k = none) ∧
    period_avg [(⟨1, 30⟩, (10 : ℚ)), (⟨2, 30⟩, 20), (⟨3, 0⟩, 30)] ⟨1, 30⟩ ⟨3, 0⟩ =
      PyRes.keyError :=
  ⟨by decide, by decide,
    (period_avg_missing_slot [(⟨1, 30⟩, (10 : ℚ)), (⟨2, 30⟩, 20), (⟨3, 0⟩, 30)] ⟨1, 30⟩
      ⟨3, 0⟩ [⟨1, 30⟩, ⟨2, 0⟩, ⟨2, 30⟩, ⟨3, 0⟩] (by decide)).1 (by decide)⟩

/-- C6 corrected: a period with `start == end` expands to exactly one slot,
but its period average is a ZeroDivisionError (the average of energy.py line
370 runs over `time_list(p)[:-1]`, which is empty), not
`SlotStatistics[start].average`. -/
theorem single_slot_period (s : Tod) :
    time_list s s = some [s] ∧
    ∀ avgs : List (Tod × ℚ), period_avg avgs s s = PyRes.zeroDiv := by
  have h1 : time_list s s = some [s] := by
    rw [time_list, if_neg (by omega), slotsFrom_self]
  refine ⟨h1, fun avgs => ?_⟩
  simp [period_avg, h1, getAll]

/-- Counterexample to C6: for the degenerate period 0600-0600 whose slot
average is 10, the computed period average is a ZeroDivisionError, not 10. -/
theorem single_slot_counterexample :
    period_avg [(⟨6, 0⟩, (10 : ℚ))] ⟨6, 0⟩ ⟨6, 0⟩ = PyRes.zeroDiv ∧
    period_avg [(⟨6, 0⟩, (10 : ℚ))] ⟨6, 0⟩ ⟨6, 0⟩ ≠ PyRes.ok 10 := by
  refine ⟨by decide, by decide⟩

/-- C10: `c_float` maps a JSON null to `0.0`, so a price record with null
`value_inc_vat` and a yield record with null `pv_estimate` are ingested as
samples of value `0.0` (identical to a record carrying `0.0`, hence
participating in every downstream average, minimum, maximum and daily total),
not skipped and not an error; the stored price for such a record is `0.0`. -/
theorem null_value_ingested_as_zero (prices : List (String × List (String × ℚ)))
    (vf : String) (daily : List (String × DayEntry)) (b : Bool) (r pe : String) :
    c_float none = 0 ∧
    priceStep prices ⟨vf, none⟩ = priceStep prices ⟨vf, some 0⟩ ∧
    assocFind
      ((assocFind (priceStep prices ⟨vf, none⟩) (((vf.drop 11).take 5).replace ":" "")).getD [])
      (vf.take 10) = some 0 ∧
    solStep daily ⟨b, r, pe, none⟩ = solStep daily ⟨b, r, pe, some 0⟩ := by
  refine ⟨rfl, rfl, ?_, rfl⟩
  have e1 : priceStep prices ⟨vf, none⟩ =
      assocSet prices (((vf.drop 11).take 5).replace ":" "")
        (assocSet ((assocFind prices (((vf.drop 11).take 5).replace ":" "")).getD [])
          (vf.take 10) 0) := rfl
  rw [e1, assocFind_assocSet_self, Option.getD_some, assocFind_assocSet_self]

lemma DayEntry.forecast_mk (a : Bool) (b : ℚ) (c : List (String × List String)) :
    (DayEntry.mk a b c).forecast = a := rfl

lemma DayEntry.kwh_mk (a : Bool) (b : ℚ) (c : List (String × List String)) :
    (DayEntry.mk a b c).kwh = b := rfl

lemma DayEntry.rids_mk (a : Bool) (b : ℚ) (c : List (String × List String)) :
    (DayEntry.mk a b c).rids = c := rfl

lemma timesOf_eq (daily : List (String × DayEntry)) (d r : String) (b : Bool) :
    timesOf daily d r = (assocFind ((assocFind daily d).getD ⟨b, 0, []⟩).rids r).getD [] := by
  cases hfind : assocFind daily d with
  | none => simp [timesOf, hfind, assocFind]
  | some e => simp [timesOf, hfind]

lemma assocFind_solStep (daily : List (String × DayEntry)) (t : SolSample) (d : String) :
    assocFind (solStep daily t) d =
      if d = sampleDate t then some (finalEntry daily t) else assocFind daily d := by
  cases hfind : assocFind daily (sampleDate t) with
  | some e0 =>
    have hA : (assocFind daily (sampleDate t)).isSome = true := by rw [hfind]; rfl
    simp only [solStep, finalEntry]
    rw [if_pos hA, hfind, Option.getD_some]
    by_cases hr : (assocFind e0.rids t.rid).isSome = true
    · obtain ⟨rl0, hrl⟩ := Option.isSome_iff_exists.mp hr
      rw [if_pos hr, hrl, Option.getD_some]
      by_cases hm : sampleTime t ∈ rl0
      · rw [if_pos hm]
        by_cases hd : d = sampleDate t
        · rw [if_pos hd, hd, assocFind_assocSet_self, if_pos hm]
        · rw [if_neg hd, assocFind_assocSet_ne _ _ _ _ hd]
      · rw [if_neg hm]
        by_cases hd : d = sampleDate t
        · rw [if_pos hd, hd, assocFind_assocSet_self, if_neg hm]
        · rw [if_neg hd, assocFind_assocSet_ne _ _ _ _ hd, assocFind_assocSet_ne _ _ _ _ hd]
    · rw [if_neg hr]
      simp only [DayEntry.rids_mk]
      rw [assocFind_assocSet_self, Option.getD_some, if_neg (List.not_mem_nil _)]
      by_cases hd : d = sampleDate t
      · rw [if_pos hd, hd, assocFind_assocSet_self, if_neg (List.not_mem_nil _)]
      · rw [if_neg hd, assocFind_assocSet_ne _ _ _ _ hd, assocFind_assocSet_ne _ _ _ _ hd]
  | none =>
    have hA : ¬ (assocFind daily (sampleDate t)).isSome = true := by rw [hfind]; simp
    simp only [solStep, finalEntry]
    rw [if_neg hA, hfind, Option.getD_none, assocFind_assocSet_self, Option.getD_some]
    simp only [DayEntry.rids_mk]
    rw [if_neg (show ¬ (assocFind ([] : List (String × List String)) t.rid).isSome = true by
      simp [assocFind])]
    simp only [DayEntry.rids_mk]
    rw [assocFind_assocSet_self, Option.getD_some, if_neg (List.not_mem_nil _)]
    by_cases hd : d = sampleDate t
    · rw [if_pos hd, hd, assocFind_assocSet_self, if_neg (List.not_mem_nil _)]
    · rw [if_neg hd, assocFind_assocSet_ne _ _ _ _ hd, assocFind_assocSet_ne _ _ _ _ hd,
        assocFind_assocSet_ne _ _ _ _ hd]

lemma finalEntry_time_mem (daily : List (String × DayEntry)) (t : SolSample) :
    sampleTime t ∈ (assocFind (finalEntry daily t).rids t.rid).getD [] := by
  simp only [finalEntry]
  by_cases hr : (assocFind ((assocFind daily (sampleDate t)).getD
      ⟨t.isForecast, 0, []⟩).rids t.rid).isSome = true
  · obtain ⟨rl0, hrl⟩ := Option.isSome_iff_exists.mp hr
    rw [if_pos hr, hrl, Option.getD_some]
    by_cases hm : sampleTime t ∈ rl0
    · rw [if_pos hm, hrl, Option.getD_some]
      exact hm
    · rw [if_neg hm]
      simp only [DayEntry.rids_mk]
      rw [assocFind_assocSet_self, Option.getD_some]
      exact List.mem_append_right _ (List.mem_singleton_self _)
  · rw [if_neg hr]
    simp only [DayEntry.rids_mk]
    rw [assocFind_assocSet_self, Option.getD_some, if_neg (List.not_mem_nil _)]
    simp only [DayEntry.rids_mk]
    rw [assocFind_assocSet_self, Option.getD_some]
    exact List.mem_append_right _ (List.mem_singleton_self _)

lemma finalEntry_rids_sup (daily : List (String × DayEntry)) (t : SolSample) (r x : String)
    (hx : x ∈ (assocFind ((assocFind daily (sampleDate t)).getD
      ⟨t.isForecast, 0, []⟩).rids r).getD []) :
    x ∈ (assocFind (finalEntry daily t).rids r).getD [] := by
  simp only [finalEntry]
  by_cases hr : (assocFind ((assocFind daily (sampleDate t)).getD
      ⟨t.isForecast, 0, []⟩).rids t.rid).isSome = true
  · obtain ⟨rl0, hrl⟩ := Option.isSome_iff_exists.mp hr
    rw [if_pos hr, hrl, Option.getD_some]
    by_cases hm : sampleTime t ∈ rl0
    · rw [if_pos hm]
      exact hx
    · rw [if_neg hm]
      simp only [DayEntry.rids_mk]
      by_cases hrid : r = t.rid
      · subst hrid
        rw [assocFind_assocSet_self, Option.getD_some]
        rw [hrl, Option.getD_some] at hx
        exact List.mem_append_left _ hx
      · rw [assocFind_assocSet_ne _ _ _ _ hrid]
        exact hx
  · rw [if_neg hr]
    simp only [DayEntry.rids_mk]
    rw [assocFind_assocSet_self, Option.getD_some, if_neg (List.not_mem_nil _)]
    simp only [DayEntry.rids_mk]
    by_cases hrid : r = t.rid
    · subst hrid
      have hnone : assocFind ((assocFind daily (sampleDate t)).getD
          ⟨t.isForecast, 0, []⟩).rids t.rid = none := by
        cases hc : assocFind ((assocFind daily (sampleDate t)).getD
            ⟨t.isForecast, 0, []⟩).rids t.rid
        · rfl
        · rw [hc] at hr
          simp at hr
      rw [hnone] at hx
      simp at hx
    · rw [assocFind_assocSet_ne _ _ _ _ hrid, assocFind_assocSet_ne _ _ _ _ hrid]
      exact hx

lemma finalEntry_kwh (daily : List (String × DayEntry)) (t : SolSample)
    (h : seenIn daily t = false) :
    (finalEntry daily t).kwh = kwhOf daily (sampleDate t) + c_float t.pv / 2 := by
  have hns : ¬ sampleTime t ∈ timesOf daily (sampleDate t) t.rid := by
    rw [seenIn] at h
    exact of_decide_eq_false h
  rw [timesOf_eq daily _ _ t.isForecast] at hns
  simp only [finalEntry]
  by_cases hr : (assocFind ((assocFind daily (sampleDate t)).getD
      ⟨t.isForecast, 0, []⟩).rids t.rid).isSome = true
  · obtain ⟨rl0, hrl⟩ := Option.isSome_iff_exists.mp hr
    rw [hrl, Option.getD_some] at hns
    rw [if_pos hr, hrl, Option.getD_some, if_neg hns]
    simp only [DayEntry.kwh_mk]
    rw [kwhOf]
    cases assocFind daily (sampleDate t) with
    | none => rw [Option.getD_none, Option.getD_none, DayEntry.kwh_mk]
    | some e0 => rw [Option.getD_some, Option.getD_some]
  · rw [if_neg hr]
    simp only [DayEntry.rids_mk]
    rw [assocFind_assocSet_self, Option.getD_some, if_neg (List.not_mem_nil _)]
    simp only [DayEntry.kwh_mk]
    rw [kwhOf]
    cases assocFind daily (sampleDate t) with
    | none => rw [Option.getD_none, Option.getD_none, DayEntry.kwh_mk]
    | some e0 => rw [Option.getD_some, Option.getD_some]

lemma solStep_seen (daily : List (String × DayEntry)) (t : SolSample)
    (h : seenIn daily t = true) : solStep daily t = daily := by
  rw [seenIn] at h
  replace h := of_decide_eq_true h
  cases hfind : assocFind daily (sampleDate t) with
  | none =>
    rw [timesOf_eq daily _ _ t.isForecast, hfind] at h
    simp [assocFind] at h
  | some e0 =>
    rw [timesOf_eq daily _ _ t.isForecast, hfind, Option.getD_some] at h
    cases hrl : assocFind e0.rids t.rid with
    | none =>
      rw [hrl] at h
      simp at h
    | some rl0 =>
      rw [hrl, Option.getD_some] at h
      have hA : (assocFind daily (sampleDate t)).isSome = true := by rw [hfind]; rfl
      have hr : (assocFind e0.rids t.rid).isSome = true := by rw [hrl]; rfl
      simp only [solStep]
      rw [if_pos hA, hfind, Option.getD_some, if_pos hr, hrl, Option.getD_some, if_pos h]
      exact assocSet_find_self _ _ _ hfind

lemma timesOf_solStep (daily : List (String × DayEntry)) (t : SolSample) (d r x : String)
    (hx : x ∈ timesOf daily d r) : x ∈ timesOf (solStep daily t) d r := by
  by_cases hd : d = sampleDate t
  · rw [hd] at hx ⊢
    rw [timesOf_eq _ _ _ t.isForecast, assocFind_solStep, if_pos rfl, Option.getD_some]
    rw [timesOf_eq _ _ _ t.isForecast] at hx
    exact finalEntry_rids_sup daily t r x hx
  · rw [timesOf_eq _ _ _ t.isForecast, assocFind_solStep, if_neg hd,
      ← timesOf_eq _ _ _ t.isForecast]
    exact hx

lemma seenIn_solStep_self (daily : List (String × DayEntry)) (t : SolSample) :
    seenIn (solStep daily t) t = true := by
  rw [seenIn, decide_eq_true_eq]
  rw [timesOf_eq _ _ _ t.isForecast, assocFind_solStep, if_pos rfl, Option.getD_some]
  exact finalEntry_time_mem daily t

lemma kwhOf_solStep_new (daily : List (String × DayEntry)) (s : SolSample)
    (h : seenIn daily s = false) :
    kwhOf (solStep daily s) (sampleDate s) = kwhOf daily (sampleDate s) + c_float s.pv / 2 := by
  rw [kwhOf, assocFind_solStep, if_pos rfl, Option.getD_some]
  exact finalEntry_kwh daily s h

lemma seenIn_key_congr (daily : List (String × DayEntry)) (t s : SolSample)
    (hrid : t.rid = s.rid) (hpe : t.period_end = s.period_end) :
    seenIn daily t = seenIn daily s := by
  simp only [seenIn, sampleDate, sampleTime, hrid, hpe]

lemma seenIn_foldl (L : List SolSample) (daily : List (String × DayEntry)) (s : SolSample)
    (h : seenIn daily s = true) : seenIn (L.foldl solStep daily) s = true := by
  induction L generalizing daily with
  | nil => exact h
  | cons t T ih =>
    rw [List.foldl_cons]
    refine ih (solStep daily t) ?_
    rw [seenIn, decide_eq_true_eq] at h ⊢
    exact timesOf_solStep daily t _ _ _ h

/-- C3: the Yield Aggregator deduplicates by (rid, time) within each calendar
date: a sample whose rid and timestamp equal those of an earlier sample
(e.g. the same half hour present in both the forecast and the
estimated-actual set) leaves the whole aggregation state, hence every
date total, unchanged; and each sample with a new (rid, time) key adds
exactly `c_float(pv) / 2` kWh to the total of its date. -/
theorem solcast_dedup (F E : List SolSample) (s dup : SolSample)
    (hrid : dup.rid = s.rid) (hpe : dup.period_end = s.period_end) :
    solAgg ((F ++ s :: E) ++ [dup]) = solAgg (F ++ s :: E) ∧
    (seenIn (solAgg F) s = false →
      kwhOf (solAgg (F ++ [s])) (sampleDate s) =
        kwhOf (solAgg F) (sampleDate s) + c_float s.pv / 2) := by
  constructor
  · rw [solAgg, List.foldl_append, List.foldl_cons, List.foldl_nil]
    refine solStep_seen _ dup ?_
    rw [seenIn_key_congr _ dup s hrid hpe]
    have hsplit : F ++ s :: E = (F ++ [s]) ++ E := by simp
    rw [hsplit, List.foldl_append]
    refine seenIn_foldl E _ s ?_
    rw [List.foldl_append, List.foldl_cons, List.foldl_nil]
    exact seenIn_solStep_self _ s
  · intro h
    rw [solAgg, List.foldl_append, List.foldl_cons, List.foldl_nil]
    exact kwhOf_solStep_new _ s h

/-- Witness for C3: a forecast sample and its estimated-actual twin. -/
theorem solcast_dedup_witness :
    (sampleB.rid = sampleA.rid ∧ sampleB.period_end = sampleA.period_end) ∧
    solAgg (([] ++ sampleA :: []) ++ [sampleB]) = solAgg ([] ++ sampleA :: []) ∧
    (seenIn (solAgg []) sampleA = false ∧
      kwhOf (solAgg ([] ++ [sampleA])) (sampleDate sampleA) =
        kwhOf (solAgg []) (sampleDate sampleA) + c_float sampleA.pv / 2) :=
  ⟨⟨by decide, by decide⟩,
    (solcast_dedup [] [] sampleA sampleB (by decide) (by decide)).1,
    by decide,
    (solcast_dedup [] [] sampleA sampleB (by decide) (by decide)).2 (by decide)⟩

lemma trimLoopFuel_zero (keys : List String) (days : Nat) :
    trimLoopFuel 0 keys days = keys := rfl

lemma trimLoopFuel_succ (f : Nat) (keys : List String) (days : Nat) :
    trimLoopFuel (f + 1) keys days =
      if keys.length > 2 * days then trimLoopFuel f ((keys.drop 1).dropLast) days
      else keys := rfl

lemma dropBoth_zero (l : List String) : dropBoth 0 l = l := by
  simp [dropBoth]

lemma dropBoth_one (l : List String) : dropBoth 1 l = (l.drop 1).dropLast := by
  rw [dropBoth, List.dropLast_eq_take, List.length_drop]
  congr 1

lemma dropBoth_length (l : List String) : (dropBoth 1 l).length = l.length - 2 := by
  rw [dropBoth, List.length_take, List.length_drop]
  omega

lemma dropBoth_comp (a : Nat) (l : List String) :
    dropBoth a (dropBoth 1 l) = dropBoth (a + 1) l := by
  show ((dropBoth 1 l).drop a).take ((dropBoth 1 l).length - 2 * a) =
    (l.drop (a + 1)).take (l.length - 2 * (a + 1))
  rw [dropBoth_length, dropBoth, List.drop_take, List.drop_drop, List.take_take]
  rw [show a + 1 = 1 + a by omega]
  congr 1
  omega

lemma trimLoopFuel_dropBoth (days : Nat) : ∀ (fuel : Nat) (m : List String),
    ∃ k, trimLoopFuel fuel m days = dropBoth k m := by
  intro fuel
  induction fuel with
  | zero =>
    intro m
    exact ⟨0, (dropBoth_zero m).symm⟩
  | succ f ih =>
    intro m
    rw [trimLoopFuel_succ]
    by_cases hc : m.length > 2 * days
    · rw [if_pos hc]
      obtain ⟨k, hk⟩ := ih ((m.drop 1).dropLast)
      refine ⟨k + 1, ?_⟩
      rw [hk, ← dropBoth_one, dropBoth_comp]
    · rw [if_neg hc]
      exact ⟨0, (dropBoth_zero m).symm⟩

lemma trimLoopFuel_noop (fuel : Nat) (m : List String) (days : Nat)
    (h : ¬ m.length > 2 * days) : trimLoopFuel fuel m days = m := by
  cases fuel with
  | zero => rfl
  | succ f => rw [trimLoopFuel_succ, if_neg h]

lemma trimLoopFuel_le (days : Nat) : ∀ (fuel : Nat) (m : List String), m.length ≤ fuel →
    (trimLoopFuel fuel m days).length ≤ 2 * days ∨
      (trimLoopFuel fuel m days = m ∧ m.length ≤ 2 * days) := by
  intro fuel
  induction fuel with
  | zero =>
    intro m hm
    rw [trimLoopFuel_zero]
    left
    omega
  | succ f ih =>
    intro m hm
    rw [trimLoopFuel_succ]
    by_cases hc : m.length > 2 * days
    · rw [if_pos hc]
      have hlen : ((m.drop 1).dropLast).length ≤ f := by
        rw [List.length_dropLast, List.length_drop]
        omega
      rcases ih ((m.drop 1).dropLast) hlen with h1 | ⟨h1, h2⟩
      · exact Or.inl h1
      · left
        rw [h1]
        exact h2
    · rw [if_neg hc]
      right
      exact ⟨rfl, by omega⟩

lemma trimLoopFuel_irrel (days : Nat) : ∀ (f1 f2 : Nat) (m : List String),
    m.length ≤ f1 → m.length ≤ f2 → trimLoopFuel f1 m days = trimLoopFuel f2 m days := by
  intro f1
  induction f1 with
  | zero =>
    intro f2 m h1 h2
    have hm : m.length = 0 := by omega
    rw [trimLoopFuel_zero, trimLoopFuel_noop _ _ _ (by omega)]
  | succ f ih =>
    intro f2 m h1 h2
    cases f2 with
    | zero =>
      have hm : m.length = 0 := by omega
      rw [trimLoopFuel_zero, trimLoopFuel_noop _ _ _ (by omega)]
    | succ g =>
      rw [trimLoopFuel_succ, trimLoopFuel_succ]
      by_cases hc : m.length > 2 * days
      · rw [if_pos hc, if_pos hc]
        have hlen : ((m.drop 1).dropLast).length ≤ f := by
          rw [List.length_dropLast, List.length_drop]
          omega
        have hlen2 : ((m.drop 1).dropLast).length ≤ g := by
          rw [List.length_dropLast, List.length_drop]
          omega
        exact ih g _ hlen hlen2
      · rw [if_neg hc, if_neg hc]

/-- The fuel passed by `trimLoop` is sufficient: `trimLoop` satisfies exactly
the defining equation of the Python `while` loop of energy.py lines 498-500. -/
lemma trimLoop_eq (m : List String) (days : Nat) :
    trimLoop m days =
      if m.length > 2 * days then trimLoop ((m.drop 1).dropLast) days else m := by
  rw [trimLoop, trimLoop]
  by_cases hc : m.length > 2 * days
  · rw [if_pos hc]
    obtain ⟨n, hn⟩ : ∃ n, m.length = n + 1 := ⟨m.length - 1, by omega⟩
    rw [hn, trimLoopFuel_succ, if_pos hc]
    exact trimLoopFuel_irrel days n _ _
      (by rw [List.length_dropLast, List.length_drop]; omega) (le_refl _)
  · rw [if_neg hc]
    exact trimLoopFuel_noop _ _ _ hc

/-- C4: after bucketing, the aggregator unconditionally removes the earliest
and latest sorted date (`[1:-1]`), then, when `days` restricts the window
(more than `2 * days` dates remain), keeps trimming one date from each end —
the result is always a symmetric middle section of the sorted date list, the
extra trimming happens only in that case, and it stops as soon as at most
`2 * days` dates remain; in particular 5 sorted dates with `days = 3`
lose exactly one date from each end, keeping the middle 3. -/
theorem yield_trim (l : List String) (d : Nat) :
    (∃ k, keysAfterTrim l d = dropBoth (k + 1) l) ∧
    (((l.drop 1).dropLast).length ≤ 2 * d → keysAfterTrim l d = (l.drop 1).dropLast) ∧
    (((l.drop 1).dropLast).length > 2 * d → (keysAfterTrim l d).length ≤ 2 * d) ∧
    keysAfterTrim ["2023-02-01", "2023-02-02", "2023-02-03", "2023-02-04", "2023-02-05"] 3 =
      ["2023-02-02", "2023-02-03", "2023-02-04"] := by
  refine ⟨?_, ?_, ?_, by decide⟩
  · obtain ⟨k, hk⟩ :=
      trimLoopFuel_dropBoth d ((l.drop 1).dropLast).length ((l.drop 1).dropLast)
    refine ⟨k, ?_⟩
    rw [keysAfterTrim, trimLoop, hk, ← dropBoth_one, dropBoth_comp]
  · intro h
    rw [keysAfterTrim, trimLoop]
    exact trimLoopFuel_noop _ _ _ (by omega)
  · intro h
    rw [keysAfterTrim, trimLoop]
    rcases trimLoopFuel_le d ((l.drop 1).dropLast).length ((l.drop 1).dropLast)
      (le_refl _) with h1 | ⟨h1, h2⟩
    · exact h1
    · omega

/-- Witness for C4: 5 sorted dates and days = 3, where the boundary discard
already brings the count within range and no further trim runs. -/
theorem yield_trim_witness :
    ((["2023-02-01", "2023-02-02", "2023-02-03", "2023-02-04", "2023-02-05"].drop 1).dropLast).length ≤
      2 * 3 ∧
    keysAfterTrim ["2023-02-01", "2023-02-02", "2023-02-03", "2023-02-04", "2023-02-05"] 3 =
      ((["2023-02-01", "2023-02-02", "2023-02-03", "2023-02-04", "2023-02-05"] :
        List String).drop 1).dropLast :=
  ⟨by decide,
    (yield_trim ["2023-02-01", "2023-02-02", "2023-02-03", "2023-02-04", "2023-02-05"] 3).2.1
      (by decide)⟩

/-- C7 amended: the run-average step stores `total` as the sum of the stored
per-date values over the remaining dates, and `average = total / count` of
remaining dates when that count is positive; when the count is 0 no average is
produced at all (the `self.avg` attribute is simply never set, modelled as
`none`) — the code raises no EmptyWindow error. -/
theorem solcast_totals (samples : List SolSample) (days : Nat) (cal : ℚ) :
    (solcastInit samples days cal).total = (solcastInit samples days cal).values.sum ∧
    (solcastInit samples days cal).values =
      (solcastInit samples days cal).keys.map
        (fun k => kwhOf (solcastInit samples days cal).daily k) ∧
    (0 < (solcastInit samples days cal).keys.length →
      (solcastInit samples days cal).avg =
        some ((solcastInit samples days cal).total /
          ((solcastInit samples days cal).keys.length : ℚ))) ∧
    ((solcastInit samples days cal).keys.length = 0 →
      (solcastInit samples days cal).avg = none) := by
  have havg : (solcastInit samples days cal).avg =
      if (solcastInit samples days cal).keys.length > 0 then
        some ((solcastInit samples days cal).total /
          ((solcastInit samples days cal).keys.length : ℚ))
      else none := rfl
  refine ⟨rfl, rfl, ?_, ?_⟩
  · intro h
    rw [havg, if_pos h]
  · intro h
    rw [havg, if_neg (by omega)]

/-- Counterexample to C7 as stated: with no samples the remaining date count
is 0, and the aggregation produces an absent average (the attribute is never
set) and a silent total of 0 — no EmptyWindow error is raised or reported. -/
theorem solcast_empty_window_silent :
    (solcastInit [] 7 1).avg = none ∧ (solcastInit [] 7 1).total = 0 :=
  ⟨rfl, rfl⟩

/-- Witness for the amended C7 on three consecutive dates (one date remains
after the boundary discard). -/
theorem solcast_totals_witness :
    0 < (solcastInit [sampleC1, sampleC2, sampleC3] 7 1).keys.length ∧
    (solcastInit [sampleC1, sampleC2, sampleC3] 7 1).avg =
      some ((solcastInit [sampleC1, sampleC2, sampleC3] 7 1).total /
        ((solcastInit [sampleC1, sampleC2, sampleC3] 7 1).keys.length : ℚ)) :=
  ⟨by decide, (solcast_totals [sampleC1, sampleC2, sampleC3] 7 1).2.2.1 (by decide)⟩

/-- C9: the calibration multiplier is purely presentational: the stored
per-date totals (and the derived keys and total) of the aggregation are
independent of the calibration value, which is only stored in the `cal`
attribute, and every presented per-date value is the stored raw total times
the calibration factor — so changing the calibration rescales presented
values without re-aggregating the raw samples. -/
theorem solcast_cal_presentational (samples : List SolSample) (days : Nat) (c1 c2 : ℚ)
    (k : String) :
    (solcastInit samples days c1).daily = (solcastInit samples days c2).daily ∧
    (solcastInit samples days c1).keys = (solcastInit samples days c2).keys ∧
    (solcastInit samples days c1).total = (solcastInit samples days c2).total ∧
    (solcastInit samples days c1).cal = c1 ∧
    presentedDaily (solcastInit samples days c1) k = kwhOf (solAgg samples) k * c1 :=
  ⟨rfl, rfl, rfl, rfl, rfl⟩
